import Mathlib

/-!
Shallow embedding of the algorithmic core of `riptable/rt_utils.py`:
the indexed gather with default (`mbget`, `_mbget_2dims`), the key
normalizer (`normalize_keys`) and the as-of aligner (`alignmk`).

Python/numpy machine values are embedded as follows: machine integers and
times are `Int` (the source never overflows its 64-bit times/indices for
the properties at stake; where a fixed-width sentinel matters it is an
explicit constant such as `-2^31`), floating-point data is carried
opaquely (a gather never computes with floats, it only moves them or
substitutes NaN, so floats are embedded as an opaque payload plus a
distinguished NaN), strings are `String`. Fallible functions return
`Except RTError _` mirroring the Python exceptions raised.

Pieces of the program that live outside `rt_utils.py` (the native kernels
`rc.MultiKeyAlign32` and `MathLedger._MBGET`, the collaborators
`get_common_dtype`, `MathLedger._AS_FA_TYPE`, `Categorical.align` and the
`INVALID_DICT` sentinel table) are modelled from the spec; each such
definition says so in its doc comment.
-/

set_option autoImplicit false

namespace RtUtils

/-- Numpy dtypes that can appear on the arrays handled by this module.
`bytestr w` is a fixed-width byte-string dtype (`S<w>`); `object_` is the
`'O'` dtype rejected by `mbget`. -/
inductive Dtype where
  | bool_ : Dtype
  | int8 : Dtype
  | int16 : Dtype
  | int32 : Dtype
  | int64 : Dtype
  | uint8 : Dtype
  | uint16 : Dtype
  | uint32 : Dtype
  | uint64 : Dtype
  | float32 : Dtype
  | float64 : Dtype
  | bytestr : Nat → Dtype
  | object_ : Dtype
  deriving DecidableEq, Repr

namespace Dtype

/-- Numpy's `dtype.num` type identifier (as on a 64-bit Linux build:
`int64` is `np.int_`, num 7; `int32` is `np.intc`, num 5). Two numpy
dtypes are equal iff they have the same `num` and the same `itemsize`. -/
def num : Dtype → Nat
  | .bool_ => 0
  | .int8 => 1
  | .uint8 => 2
  | .int16 => 3
  | .uint16 => 4
  | .int32 => 5
  | .uint32 => 6
  | .int64 => 7
  | .uint64 => 8
  | .float32 => 11
  | .float64 => 12
  | .bytestr _ => 18
  | .object_ => 17

/-- Numpy's `dtype.itemsize` in bytes. -/
def itemsize : Dtype → Nat
  | .bool_ => 1
  | .int8 => 1
  | .uint8 => 1
  | .int16 => 2
  | .uint16 => 2
  | .int32 => 4
  | .uint32 => 4
  | .int64 => 8
  | .uint64 => 8
  | .float32 => 4
  | .float64 => 8
  | .bytestr w => w
  | .object_ => 8

/-- Membership of `dtype.char` in `NumpyCharTypes.AllInteger`
(`rt_utils.py` line 606 uses it to validate the index array). -/
def isInteger : Dtype → Bool
  | .int8 | .int16 | .int32 | .int64 => true
  | .uint8 | .uint16 | .uint32 | .uint64 => true
  | _ => false

/-- The dtypes the native 1-D gather kernel supports, per the `Raises`
section of `mbget`'s docstring: int32, int64, float32, float64 and
chararray. -/
def mbgetSupported : Dtype → Bool
  | .int32 | .int64 | .float32 | .float64 => true
  | .bytestr _ => true
  | _ => false

end Dtype

/-- A scalar cell of a numpy array. Finite floats are carried as an
opaque payload (`vfloat`), never computed with; `vnan` is the NaN
default. -/
inductive RTVal where
  | vbool : Bool → RTVal
  | vint : Int → RTVal
  | vfloat : Int → RTVal
  | vnan : RTVal
  | vstr : String → RTVal
  deriving DecidableEq, Repr

/-- Modelled from the spec: the `INVALID_DICT` sentinel table of
`rt_enum.py` ("NaN for floating point, the reserved minimum-value
integer sentinel for integer types, the empty value for string/char
types"); unsigned sentinels are the maximum value of the width. -/
def Dtype.invalid : Dtype → RTVal
  | .bool_ => .vbool false
  | .int8 => .vint (-(2 ^ 7))
  | .int16 => .vint (-(2 ^ 15))
  | .int32 => .vint (-(2 ^ 31))
  | .int64 => .vint (-(2 ^ 63))
  | .uint8 => .vint (2 ^ 8 - 1)
  | .uint16 => .vint (2 ^ 16 - 1)
  | .uint32 => .vint (2 ^ 32 - 1)
  | .uint64 => .vint (2 ^ 64 - 1)
  | .float32 => .vnan
  | .float64 => .vnan
  | .bytestr _ => .vstr ""
  | .object_ => .vint 0

/-- A numpy `ndarray` (or riptable `FastArray`): a dtype, a shape, the
cells flattened in row-major (C) order, and the memory-layout flag
(`np.isfortran`). `cats` is `some labels` exactly when the array is a
riptable `Categorical` (its `data` then holds the integer codes). -/
structure NDArray where
  dtype : Dtype
  shape : List Nat
  data : List RTVal
  fortran : Bool := false
  cats : Option (List RTVal) := none
  deriving DecidableEq, Repr

namespace NDArray

/-- Numpy `ndarray.ndim`. -/
def ndim (a : NDArray) : Nat := a.shape.length

/-- Python's `len(a)`, i.e. `a.shape[0]`. -/
def len (a : NDArray) : Nat := a.shape.headD 0

/-- A well-formed ndarray stores exactly `prod shape` cells. -/
def WF (a : NDArray) : Prop := a.data.length = a.shape.prod

instance (a : NDArray) : Decidable a.WF := by unfold WF; infer_instance

end NDArray

/-- The Python exceptions this module raises. -/
inductive RTError where
  | typeError : String → RTError
  | valueError : String → RTError
  | notImplementedError : String → RTError
  deriving DecidableEq, Repr

/-- Holds when the call raised a `TypeError` (of any message). -/
def typeErrored {α : Type} : Except RTError α → Bool
  | .error (.typeError _) => true
  | _ => false

/-- Holds when the call raised a `ValueError` (of any message). -/
def valueErrored {α : Type} : Except RTError α → Bool
  | .error (.valueError _) => true
  | _ => false

/-- Holds when the call raised a `NotImplementedError` (of any message). -/
def notImplErrored {α : Type} : Except RTError α → Bool
  | .error (.notImplementedError _) => true
  | _ => false

/-- The integer stored in a cell of an integer-dtype array. -/
def RTVal.toInt : RTVal → Int
  | .vint n => n
  | .vbool true => 1
  | _ => 0

/-- Modelled from the spec: the native 1-D gather kernel
`TypeRegister.MathLedger._MBGET` ("`output[k] = values[index[k]]` if
`0 <= index[k] < len(values)`, else a type-appropriate default"; the
custom default `d` is "accepted but not consistently honored" — the
docstring says "currently always uses the default" — so it is ignored
here). The result keeps the source's dtype and takes the index array's
shape. -/
def mbget1 (aValues : NDArray) (aIndex : NDArray) : NDArray :=
  { dtype := aValues.dtype
    shape := aIndex.shape
    data := aIndex.data.map fun v =>
      let i := v.toInt
      if 0 ≤ i ∧ i < (aValues.data.length : Int) then
        aValues.data.getD i.toNat aValues.dtype.invalid
      else
        aValues.dtype.invalid }

/-- Numpy `np.repeat(xs, n)`: each element repeated `n` times in place. -/
def npRepeat (xs : List Int) (n : Nat) : List Int :=
  (xs.map (List.replicate n)).flatten

/-- Numpy `np.tile(xs, n)`: the whole list repeated `n` times. -/
def npTile (xs : List Int) (n : Nat) : List Int :=
  (List.replicate n xs).flatten

/-- Numpy `np.arange(n)` as a list of integers. -/
def npArange (n : Nat) : List Int :=
  (List.range n).map Int.ofNat

/-- The expanded index array built by `_mbget_2dims` (lines 498-499):
`np.repeat(idx, ncols) * ncols + np.tile(np.arange(ncols), nrows)`. -/
def expandedIdx (idx : List Int) (ncols nrows : Nat) : List Int :=
  List.zipWith (· + ·) ((npRepeat idx ncols).map (· * (ncols : Int)))
    (npTile (npArange ncols) nrows)

/-- Numpy `arr.ravel()`: the row-major flattening (always C-contiguous). -/
def ravel (a : NDArray) : NDArray :=
  { a with shape := [a.data.length], fortran := false }

/-- Source `_mbget_2dims(arr, idx)` (lines 485-515): the 2-D source is
flattened, the index array is expanded to one flattened index per column
of each requested row, the 1-D gather is applied, and the flat result is
reshaped to `(len(idx), ncols)`, restoring Fortran order when the source
was Fortran-ordered. The source routes the raveled array back through
`mbget`; since the raveled array is 1-D, its dtype is the (already
validated, non-object) source dtype and the expanded index is int64,
that call lands exactly in the 1-D kernel, so the embedding calls
`mbget1` directly. -/
def _mbget_2dims (arr : NDArray) (idx : NDArray) : NDArray :=
  let nrows := idx.len
  let ncols := arr.shape.getD 1 0
  let expanded : NDArray :=
    { dtype := .int64, shape := [nrows * ncols],
      data := (expandedIdx (idx.data.map RTVal.toInt) ncols nrows).map .vint }
  let restoreFortran := arr.fortran
  let flat := mbget1 (ravel arr) expanded
  { flat with shape := [nrows, ncols], fortran := restoreFortran }

/-- Source `mbget(aValues, aIndex, d)` (lines 518-620): validates the dtypes,
then dispatches on `aValues.ndim`. A list/tuple input is converted to a
`FastArray` by the source before these checks; the embedding takes the
arrays directly. The 1-D result is re-classed from `aValues`
(`newclassfrominstance`), which keeps its dtype. -/
def mbget (aValues : NDArray) (aIndex : NDArray) : Except RTError NDArray :=
  if aValues.dtype = .object_ then
    .error (.typeError "mbget does not support object types")
  else if ¬ aIndex.dtype.isInteger then
    .error (.typeError "indices provided to mbget must be an integer type")
  else if aValues.ndim = 1 then
    .ok (mbget1 aValues aIndex)
  else if aValues.ndim = 2 then
    .ok (_mbget_2dims aValues aIndex)
  else
    .error (.valueError "mbget does not support arrays of more than 2 dimensions.")

/-- Index of the first occurrence of `v` in a list (length of the list
when absent); helper for the categorical code spaces. -/
def idxOf (v : RTVal) : List RTVal → Nat
  | [] => 0
  | w :: rest => if w = v then 0 else idxOf v rest + 1

/-- Modelled from the spec: `np.asanyarray` on a Python list of scalars
(a 1-D array whose dtype is inferred from the elements: 64-bit integers
for integer scalars, double for floats, a byte string of the widest
element for strings). -/
def asanyarrayScalars (xs : List RTVal) : NDArray :=
  let dt : Dtype :=
    if xs.all fun v => match v with | .vint _ => true | _ => false then .int64
    else if xs.all fun v => match v with | .vint _ | .vfloat _ | .vnan => true | _ => false
      then .float64
    else if xs.all fun v => match v with | .vstr _ => true | _ => false then
      .bytestr ((xs.map fun v => match v with | .vstr s => s.length | _ => 0).foldr max 0)
    else if xs.all fun v => match v with | .vbool _ => true | _ => false then .bool_
    else .object_
  { dtype := dt, shape := [xs.length], data := xs }

/-- An element of a Python list/tuple passed as a key: `np.isscalar`
distinguishes scalars from arrays. -/
inductive PyListElem where
  | scalar : RTVal → PyListElem
  | array : NDArray → PyListElem
  deriving DecidableEq, Repr

/-- An element viewed as an array, the way the source's per-column loop
consumes it. A list with an array head but a scalar later raises
`AttributeError` downstream in the source (a scalar has no `dtype`);
such mixed lists are outside every claim. -/
def PyListElem.toArray : PyListElem → NDArray
  | .scalar v => asanyarrayScalars [v]
  | .array a => a

/-- A `key1`/`key2` argument of `normalize_keys`: a dict-like column bag
(`Struct`/`dict`, kept as its ordered `values()`), a single ndarray, a
Python list or tuple, or any other value (which `np.asanyarray` wraps). -/
inductive KeyInput where
  | dictLike : List NDArray → KeyInput
  | ndarr : NDArray → KeyInput
  | pylist : List PyListElem → KeyInput
  | scalarOther : RTVal → KeyInput
  deriving DecidableEq, Repr

/-- Source `normalize_keys.check_key` (lines 344-361): dict-likes flatten to
their value columns, a bare ndarray is wrapped in a one-element list,
a non-array non-list value is converted via `np.asanyarray` and wrapped,
and a list/tuple whose first element is a scalar is treated as one key
column (`np.asanyarray` of the whole list). A list whose first element
is an array is returned as-is (elements consumed as arrays). In the
source, `key[0]` on an empty list raises `IndexError`; the embedding
returns the empty column list there (no claim touches empty lists). -/
def check_key : KeyInput → List NDArray
  | .dictLike cols => cols
  | .ndarr a => [a]
  | .scalarOther v => [asanyarrayScalars [v]]
  | .pylist [] => []
  | .pylist (PyListElem.scalar v :: rest) =>
      [asanyarrayScalars ((PyListElem.scalar v :: rest).map fun e =>
        match e with | .scalar w => w | .array _ => RTVal.vint 0)]
  | .pylist (PyListElem.array a :: rest) =>
      (PyListElem.array a :: rest).map PyListElem.toArray

/-- Modelled from the spec: `Categorical.align` reconciles two
categorical-coded columns to a shared code space ("same labels map to
same codes"); a plain array is first read as a categorical over its own
distinct values. Both outputs are int32-coded categoricals over the
merged label list. -/
def categoricalAlign (a b : NDArray) : NDArray × NDArray :=
  let partsOf : NDArray → List RTVal × List Int := fun arr =>
    match arr.cats with
    | some labs => (labs, arr.data.map RTVal.toInt)
    | none => (arr.data.dedup, arr.data.map fun v => (idxOf v arr.data.dedup : Int))
  let pa := partsOf a
  let pb := partsOf b
  let merged := (pa.1 ++ pb.1).dedup
  let recode : List RTVal → List Int → List RTVal := fun labs codes =>
    codes.map fun c => RTVal.vint (idxOf (labs.getD c.toNat (.vint 0)) merged)
  ({ dtype := .int32, shape := a.shape, data := recode pa.1 pa.2, cats := some merged },
   { dtype := .int32, shape := b.shape, data := recode pb.1 pb.2, cats := some merged })

/-- Signed integer dtype of at least the given byte width. -/
def mkInt : Nat → Dtype
  | 0 | 1 => .int8
  | 2 => .int16
  | 3 | 4 => .int32
  | _ => .int64

/-- Unsigned integer dtype of the given byte width. -/
def mkUint : Nat → Dtype
  | 0 | 1 => .uint8
  | 2 => .uint16
  | 3 | 4 => .uint32
  | _ => .uint64

/-- Floating dtype of the given byte width. -/
def mkFloat : Nat → Dtype
  | 0 | 1 | 2 | 3 | 4 => .float32
  | _ => .float64

/-- Modelled from the spec: `get_common_dtype` of `rt_numpy.py`, the
"smallest type that both can be losslessly represented in": integer and
float widths upcast to the wider, strings to the larger fixed width, an
unsigned type widens into the next signed width, integers mixing with
floats go to a float wide enough for the integer's width (capped at 8
bytes), and string/numeric mixes fall back to object. -/
def commonDtype : Dtype → Dtype → Dtype
  | .object_, _ => .object_
  | _, .object_ => .object_
  | .bool_, b => b
  | a, .bool_ => a
  | .bytestr v, .bytestr w => .bytestr (max v w)
  | .bytestr _, _ => .object_
  | _, .bytestr _ => .object_
  | .float32, b => mkFloat (max 4 (min (2 * b.itemsize) 8))
  | a, .float32 => mkFloat (max 4 (min (2 * a.itemsize) 8))
  | .float64, _ => .float64
  | _, .float64 => .float64
  | .uint8, b => if b.num % 2 = 0 then mkUint (max 1 b.itemsize) else mkInt (max 2 b.itemsize)
  | .uint16, b => if b.num % 2 = 0 then mkUint (max 2 b.itemsize) else mkInt (max 4 b.itemsize)
  | .uint32, b => if b.num % 2 = 0 then mkUint (max 4 b.itemsize) else mkInt 8
  | .uint64, b => if b.num % 2 = 0 then .uint64 else mkInt 8
  | .int8, b => if b.num % 2 = 0 then mkInt (max 2 (2 * b.itemsize)) else mkInt (max 1 b.itemsize)
  | .int16, b => if b.num % 2 = 0 then mkInt (max 2 (min (2 * b.itemsize) 8)) else mkInt (max 2 b.itemsize)
  | .int32, b => if b.num % 2 = 0 then mkInt (min (2 * b.itemsize) 8) else mkInt (max 4 b.itemsize)
  | .int64, _ => .int64

/-- Call `get_common_dtype(arr1, arr2)` as at line 395; the collaborator
takes the two arrays and resolves their dtypes. -/
def get_common_dtype (arr1 arr2 : NDArray) : Dtype :=
  commonDtype arr1.dtype arr2.dtype

/-- Numpy `arr.astype(common_dtype)`: the plain cast. It retags the dtype;
the cell payloads are kept opaquely (a naive cast does not preserve
sentinel values, which is exactly what distinguishes it from
`_AS_FA_TYPE`). -/
def astype (arr : NDArray) (t : Dtype) : NDArray :=
  { arr with dtype := t }

/-- Modelled from the spec: `TypeRegister.MathLedger._AS_FA_TYPE`, the
sentinel-aware conversion — cells equal to the source dtype's invalid
value become the target dtype's invalid value. -/
def asFaType (arr : NDArray) (t : Dtype) : NDArray :=
  { arr with
    dtype := t
    data := arr.data.map fun v => if v = arr.dtype.invalid then t.invalid else v }

/-- Source `normalize_keys.possibly_convert` (lines 363-376): when the dtype
type numbers differ, convert with the sentinel-aware cast (the source
falls back to `astype` when that raises; both paths land on the common
dtype); when only the itemsizes differ (string widths), use `astype`;
otherwise the array is returned untouched. -/
def possibly_convert (arr : NDArray) (common_dtype : Dtype) : NDArray :=
  if arr.dtype.num ≠ common_dtype.num then asFaType arr common_dtype
  else if arr.dtype.itemsize ≠ common_dtype.itemsize then astype arr common_dtype
  else arr

/-- Source `normalize_keys(key1, key2)` (lines 318-401): canonicalize both key
inputs with `check_key`, then walk the two column lists in parallel
(`zip` — silently truncating to the shorter), aligning categoricals and
converting both columns of each pair to their common dtype. -/
def normalize_keys (key1 key2 : KeyInput) : List NDArray × List NDArray :=
  let k1 := check_key key1
  let k2 := check_key key2
  let pairs := (k1.zip k2).map fun p =>
    let q := if p.1.cats.isSome || p.2.cats.isSome then categoricalAlign p.1 p.2 else p
    let cd := get_common_dtype q.1 q.2
    (possibly_convert q.1 cd, possibly_convert q.2 cd)
  (pairs.map (·.1), pairs.map (·.2))

/-- The combined multi-column key of one row, hashed as an opaque tuple
by the native kernel. -/
abbrev RKey := List RTVal

/-- The kernel's key-to-last-row-number hash map, embedded as an
association list where insertion prepends and lookup takes the first
hit (so the most recently inserted row for a key wins). -/
abbrev KHash := List (RKey × Nat)

/-- Look up the last row number recorded for key `k`. -/
def hlookup (k : RKey) : KHash → Option Nat
  | [] => none
  | (k', j) :: rest => if k' = k then some j else hlookup k rest

/-- One side's advance step of the linear merge: consume the right-hand
rows (tagged with their original row numbers) while their time satisfies
`pred`, recording each consumed row's key into the hash (last-seen-wins),
and stop at the first row that fails `pred`. -/
def consume (pred : Int → Bool) : List (Nat × RKey × Int) → KHash →
    List (Nat × RKey × Int) × KHash
  | [], h => ([], h)
  | (j, k, t) :: rest, h =>
      if pred t then consume pred rest ((k, j) :: h)
      else ((j, k, t) :: rest, h)

/-- The hash-assisted linear merge: for each left row `(k, t)` in scan
order, first consume every right row whose time `u` satisfies
`cmp u t`, then emit the last right row number recorded for `k`. -/
def mergeLoop (cmp : Int → Int → Bool) : List (RKey × Int) →
    List (Nat × RKey × Int) → KHash → List (Option Nat)
  | [], _, _ => []
  | (k, t) :: rest1, rows2, h =>
      let s := consume (fun u => cmp u t) rows2 h
      hlookup k s.2 :: mergeLoop cmp rest1 s.1 s.2

/-- The right-hand rows tagged with their row numbers, in time order. -/
def enumRows (ks : List RKey) (ts : List Int) : List (Nat × RKey × Int) :=
  (ks.zip ts).enum

/-- Modelled from the spec: the backward direction of the native kernel
`rc.MultiKeyAlign32`. Both sides are scanned once in increasing time
order; a right row is consumed while `time2[j] <= time1[i]` (strict `<`
when exact matches are disallowed), the hash keeps the last row number
seen per key, and each left row reads off the hash — yielding, for
monotonic times, the right row with the greatest time at or before
(before) the left row's time among rows with an equal key. -/
def asofBackward (ks1 : List RKey) (ts1 : List Int) (ks2 : List RKey)
    (ts2 : List Int) (allow_exact_matches : Bool) : List (Option Nat) :=
  mergeLoop (fun u t => if allow_exact_matches then u ≤ t else u < t)
    (ks1.zip ts1) (enumRows ks2 ts2) []

/-- Modelled from the spec: the forward direction of the native kernel
`rc.MultiKeyAlign32`. Symmetric to backward: both sides are scanned in
decreasing time order, consuming right rows while `time2[j] >= time1[i]`
(strict `>` without exact matches), so each left row gets the right row
with the least qualifying time (the earliest, since the scan runs from
the end, last-seen-wins). -/
def asofForward (ks1 : List RKey) (ts1 : List Int) (ks2 : List RKey)
    (ts2 : List Int) (allow_exact_matches : Bool) : List (Option Nat) :=
  (mergeLoop (fun u t => if allow_exact_matches then t ≤ u else t < u)
    (ks1.zip ts1).reverse (enumRows ks2 ts2).reverse []).reverse

/-- The riptable invalid-index sentinel for a 32-bit fancy index
(`INVALID_POINTER_32`), as in `alignmk`'s docstring output. -/
def INVALID32 : Int := -(2 ^ 31)

/-- Materialize the kernel's per-row answers as the returned int32 fancy
index: a missing match becomes the invalid sentinel. -/
def materialize (rs : List (Option Nat)) : List Int :=
  rs.map fun r => r.elim INVALID32 Int.ofNat

/-- The combined key of row `i` on one (normalized) side: one cell per
key column. -/
def rowKeyAt (cols : List NDArray) (i : Nat) : RKey :=
  cols.map fun a => a.data.getD i (.vint 0)

/-- The per-row combined keys of one side, for rows `0 .. n-1`. -/
def rowKeys (cols : List NDArray) (n : Nat) : List RKey :=
  (List.range n).map (rowKeyAt cols)

/-- A `time1`/`time2` argument: either a numpy integer array or any
other Python value (which fails `isinstance(_, np.ndarray)`). -/
inductive TimeArg where
  | ndarray : List Int → TimeArg
  | notArray : TimeArg
  deriving DecidableEq, Repr

/-- Source `alignmk(key1, key2, time1, time2, direction, allow_exact_matches)`
(lines 405-482): normalize the keys, validate that the times are numpy
arrays, reject the unimplemented `'nearest'` direction and unknown
direction strings, and run the native merge kernel in the requested
direction, returning a fancy index into the right side with
`INVALID32` marking unmatched rows. -/
def alignmk (key1 key2 : KeyInput) (time1 time2 : TimeArg)
    (direction : String) (allow_exact_matches : Bool) : Except RTError (List Int) :=
  let nk := normalize_keys key1 key2
  match time1 with
  | .notArray => .error (.typeError "time1 must be a numpy array")
  | .ndarray t1 =>
  match time2 with
  | .notArray => .error (.typeError "time2 must be a numpy array")
  | .ndarray t2 =>
  if direction = "nearest" then
    .error (.notImplementedError "The nearest direction is not yet supported by alignmk.")
  else if direction = "backward" then
    .ok (materialize (asofBackward (rowKeys nk.1 t1.length) t1
      (rowKeys nk.2 t2.length) t2 allow_exact_matches))
  else if direction = "forward" then
    .ok (materialize (asofForward (rowKeys nk.1 t1.length) t1
      (rowKeys nk.2 t2.length) t2 allow_exact_matches))
  else
    .error (.valueError "unsupported direction in alignmk")

/-- Holds when the call raised some exception (it did not return). -/
def raised {α : Type} : Except RTError α → Bool
  | .error _ => true
  | .ok _ => false

/-- Uniform key `rt.ones(12)`: twelve float64 ones. -/
def ones12 : NDArray :=
  { dtype := .float64, shape := [12], data := List.replicate 12 (.vfloat 1) }

/-- Uniform key `rt.ones(9)`: nine float64 ones. -/
def ones9 : NDArray :=
  { dtype := .float64, shape := [9], data := List.replicate 9 (.vfloat 1) }

/-- The gather example's source `v = np.array([10,20,30,40,50,60,70])`,
taken at dtype int32 as in the docstring's printed output. -/
def exValues : NDArray :=
  { dtype := .int32, shape := [7],
    data := ([10, 20, 30, 40, 50, 60, 70] : List Int).map RTVal.vint }

/-- The gather example's index `p = np.array([0,-7,4,3,7,1,2])`. -/
def exIndex : NDArray :=
  { dtype := .int64, shape := [7],
    data := ([0, -7, 4, 3, 7, 1, 2] : List Int).map RTVal.vint }

/-- An object-dtype array. -/
def exObjArr : NDArray := { dtype := .object_, shape := [2], data := [.vint 0, .vint 1] }

/-- A float64 index array (not an integer type). -/
def exFloatIdx : NDArray := { dtype := .float64, shape := [1], data := [.vfloat 0] }

/-- A 3-dimensional int32 array. -/
def exArr3d : NDArray :=
  { dtype := .int32, shape := [2, 1, 1], data := [.vint 1, .vint 2] }

/-- A 2-row, 3-column int32 matrix. -/
def exMat : NDArray :=
  { dtype := .int32, shape := [2, 3],
    data := ([1, 2, 3, 4, 5, 6] : List Int).map RTVal.vint }

/-- A one-element int64 index holding 5 (out of bounds for `exMat`). -/
def exRowIdx : NDArray := { dtype := .int64, shape := [1], data := [.vint 5] }

/-- C7: for `time1=[0,1,4,6,8,9,11,16,19,20,22,27]`,
`time2=[4,5,7,8,10,12,15,16,24]` and a uniform key of value 1 on both
sides, `alignmk` returns `[sentinel, sentinel, 0, 1, 3, 3, 4, 7, 7, 7,
7, 8]` for `direction='backward'` and `[0, 0, 0, 2, 3, 4, 5, 7, 8, 8,
8, sentinel]` for `direction='forward'`. -/
theorem alignmk_docstring_example :
    alignmk (.ndarr ones12) (.ndarr ones9)
        (.ndarray [0, 1, 4, 6, 8, 9, 11, 16, 19, 20, 22, 27])
        (.ndarray [4, 5, 7, 8, 10, 12, 15, 16, 24]) "backward" true
      = .ok [INVALID32, INVALID32, 0, 1, 3, 3, 4, 7, 7, 7, 7, 8] ∧
    alignmk (.ndarr ones12) (.ndarr ones9)
        (.ndarray [0, 1, 4, 6, 8, 9, 11, 16, 19, 20, 22, 27])
        (.ndarray [4, 5, 7, 8, 10, 12, 15, 16, 24]) "forward" true
      = .ok [0, 0, 0, 2, 3, 4, 5, 7, 8, 8, 8, INVALID32] :=
  ⟨rfl, rfl⟩

/-- C9: when the two keys have different numbers of columns,
`normalize_keys` does not raise; it returns two sequences whose common
length is the smaller of the two column counts (the parallel `zip`
silently drops the extra columns of the longer key). -/
theorem normalize_keys_truncates (key1 key2 : KeyInput) :
    (normalize_keys key1 key2).1.length
      = min (check_key key1).length (check_key key2).length ∧
    (normalize_keys key1 key2).2.length
      = min (check_key key1).length (check_key key2).length := by
  unfold normalize_keys
  simp

/-- C8: `check_key` canonicalizes each key input: a dict-like input
becomes its ordered list of value columns, a raw array becomes the
one-element sequence holding it, and a list whose first element is a
scalar is wrapped as a single one-dimensional key column holding those
scalars. -/
theorem scalarElems_map (rest : List RTVal) :
    rest.map ((fun e => match e with
      | PyListElem.scalar w => w
      | PyListElem.array _ => RTVal.vint 0) ∘ PyListElem.scalar) = rest := by
  induction rest with
  | nil => rfl
  | cons y ys ih =>
      simp only [List.map_cons, ih]
      rfl

theorem check_key_canonicalizes (cols : List NDArray) (a : NDArray)
    (xs : List RTVal) (hxs : xs ≠ []) :
    check_key (.dictLike cols) = cols ∧
    check_key (.ndarr a) = [a] ∧
    ∃ arr, check_key (.pylist (xs.map PyListElem.scalar)) = [arr] ∧
      arr.data = xs ∧ arr.ndim = 1 ∧ arr.len = xs.length := by
  refine ⟨rfl, rfl, ?_⟩
  obtain ⟨x, rest, rfl⟩ := List.exists_cons_of_ne_nil hxs
  refine ⟨asanyarrayScalars (x :: rest), ?_, rfl, rfl, rfl⟩
  show [asanyarrayScalars _] = _
  congr 2
  simpa using scalarElems_map rest

/-- C8 witness at the concrete scalar list `[3, 4]`. -/
theorem check_key_canonicalizes_witness :
    check_key (.dictLike [exValues]) = [exValues] ∧
    check_key (.ndarr exValues) = [exValues] ∧
    ∃ arr, check_key (.pylist ([RTVal.vint 3, RTVal.vint 4].map PyListElem.scalar)) = [arr] ∧
      arr.data = [RTVal.vint 3, RTVal.vint 4] ∧ arr.ndim = 1 ∧
      arr.len = [RTVal.vint 3, RTVal.vint 4].length :=
  check_key_canonicalizes [exValues] exValues [RTVal.vint 3, RTVal.vint 4] (by decide)

/-- C4: with array times, `direction='nearest'` raises
`NotImplementedError`; with any times at all, `'nearest'` never returns
a value; any direction string other than the three known ones raises
`ValueError` (given array times); and a non-array `time1` or `time2`
raises `TypeError`. -/
theorem alignmk_direction_errors (key1 key2 : KeyInput) (t1 t2 : List Int)
    (ta tb tc td : TimeArg) (d e : String) (ae : Bool)
    (hb : d ≠ "backward") (hf : d ≠ "forward") (hn : d ≠ "nearest")
    (hcd : tc = .notArray ∨ td = .notArray) :
    notImplErrored (alignmk key1 key2 (.ndarray t1) (.ndarray t2) "nearest" ae) = true ∧
    raised (alignmk key1 key2 ta tb "nearest" ae) = true ∧
    valueErrored (alignmk key1 key2 (.ndarray t1) (.ndarray t2) d ae) = true ∧
    typeErrored (alignmk key1 key2 tc td e ae) = true := by
  refine ⟨rfl, ?_, ?_, ?_⟩
  · cases ta <;> cases tb <;> rfl
  · unfold alignmk
    simp [hb, hf, hn, valueErrored]
  · rcases hcd with h | h
    · cases h; rfl
    · cases h; cases tc <;> rfl

/-- C4 witness: concrete calls covering each failure mode. -/
theorem alignmk_direction_errors_witness :
    notImplErrored (alignmk (.ndarr ones12) (.ndarr ones9)
      (.ndarray [0]) (.ndarray [1]) "nearest" true) = true ∧
    raised (alignmk (.ndarr ones12) (.ndarr ones9)
      .notArray (.ndarray [1]) "nearest" true) = true ∧
    valueErrored (alignmk (.ndarr ones12) (.ndarr ones9)
      (.ndarray [0]) (.ndarray [1]) "sideways" true) = true ∧
    typeErrored (alignmk (.ndarr ones12) (.ndarr ones9)
      .notArray (.ndarray [1]) "backward" true) = true := by
  have h := alignmk_direction_errors (.ndarr ones12) (.ndarr ones9) [0] [1]
    .notArray (.ndarray [1]) .notArray (.ndarray [1]) "sideways" "backward" true
    (by decide) (by decide) (by decide) (Or.inl rfl)
  exact h

/-- C5: `mbget` raises `TypeError` on an object-dtype values array,
`TypeError` when the index array's dtype is not an integer type, and
`ValueError` when the values array has more than two dimensions. -/
theorem mbget_type_errors (S I : NDArray) :
    (S.dtype = .object_ → typeErrored (mbget S I) = true) ∧
    (S.dtype ≠ .object_ → I.dtype.isInteger = false → typeErrored (mbget S I) = true) ∧
    (S.dtype ≠ .object_ → I.dtype.isInteger = true → 2 < S.ndim →
      valueErrored (mbget S I) = true) := by
  refine ⟨fun h => ?_, fun h1 h2 => ?_, fun h1 h2 h3 => ?_⟩
  · unfold mbget
    simp [h, typeErrored]
  · unfold mbget
    simp [h1, h2, typeErrored]
  · have n1 : S.ndim ≠ 1 := by omega
    have n2 : S.ndim ≠ 2 := by omega
    unfold mbget
    simp [h1, h2, n1, n2, valueErrored]

theorem len_of_one_dim (a : NDArray) (h1 : a.ndim = 1) (hwf : a.WF) :
    a.data.length = a.len := by
  rcases a with ⟨dt, shape, data, f, c⟩
  rcases shape with _ | ⟨m, rest⟩
  · simp [NDArray.ndim] at h1
  · rcases rest with _ | ⟨m', rest'⟩
    · simpa [NDArray.WF, NDArray.len] using hwf
    · simp [NDArray.ndim] at h1

theorem npRepeat_length (xs : List Int) (n : Nat) :
    (npRepeat xs n).length = xs.length * n := by
  induction xs with
  | nil => simp [npRepeat]
  | cons x rest ih =>
      simp only [npRepeat, List.map_cons, List.flatten_cons, List.length_append,
        List.length_replicate, List.length_cons]
      simp only [npRepeat] at ih
      rw [ih]
      ring

theorem npTile_length (xs : List Int) (n : Nat) :
    (npTile xs n).length = n * xs.length := by
  induction n with
  | zero => simp [npTile]
  | succ m ih =>
      simp only [npTile, List.replicate_succ, List.flatten_cons, List.length_append,
        List.length_cons]
      simp only [npTile] at ih
      rw [ih]
      ring

theorem mbget_ok_checks (S I : NDArray) (res : NDArray)
    (hres : mbget S I = .ok res) :
    S.dtype ≠ .object_ ∧ I.dtype.isInteger = true := by
  unfold mbget at hres
  by_cases hobj : S.dtype = .object_
  · rw [if_pos hobj] at hres
    exact Except.noConfusion hres
  rw [if_neg hobj] at hres
  by_cases hint : I.dtype.isInteger
  · exact ⟨hobj, hint⟩
  · rw [if_pos (by simpa using hint)] at hres
    exact Except.noConfusion hres

theorem mbget_ok_one_dim (S I : NDArray) (res : NDArray)
    (h1 : S.ndim = 1) (hres : mbget S I = .ok res) :
    res = mbget1 S I := by
  obtain ⟨hobj, hint⟩ := mbget_ok_checks S I res hres
  unfold mbget at hres
  rw [if_neg hobj, if_neg (by simp [hint]), if_pos h1] at hres
  injection hres with h
  exact h.symm

theorem mbget_ok_two_dim (S I : NDArray) (res : NDArray)
    (h2 : S.ndim = 2) (hres : mbget S I = .ok res) :
    res = _mbget_2dims S I := by
  obtain ⟨hobj, hint⟩ := mbget_ok_checks S I res hres
  unfold mbget at hres
  rw [if_neg hobj, if_neg (by simp [hint]), if_neg (by omega), if_pos h2] at hres
  injection hres with h
  exact h.symm

theorem expandedIdx_length (idx : List Int) (c n : Nat) :
    (expandedIdx idx c n).length = min (idx.length * c) (n * c) := by
  simp [expandedIdx, npRepeat_length, npTile_length, npArange]

/-- C6: for a 1-D source, `mbget`'s result has the index array's shape
and the source's dtype (and is well-formed when the index array is);
for a 2-D source of shape `(n, c)` and a 1-D index, the result has
shape `(len(I), c)`, the source's dtype, and matching cell count. -/
theorem mbget_shape (S I res res2 : NDArray) (n c : Nat) :
    (S.ndim = 1 → mbget S I = .ok res →
        res.shape = I.shape ∧ res.dtype = S.dtype ∧ (I.WF → res.WF)) ∧
    (S.shape = [n, c] → I.ndim = 1 → I.WF → mbget S I = .ok res2 →
        res2.shape = [I.len, c] ∧ res2.dtype = S.dtype ∧ res2.WF) := by
  constructor
  · intro h1 hres
    obtain rfl := mbget_ok_one_dim S I res h1 hres
    refine ⟨rfl, rfl, fun hwf => ?_⟩
    simpa [mbget1, NDArray.WF] using hwf
  · intro hsh h1 hwf hres
    have hnd : S.ndim = 2 := by simp [NDArray.ndim, hsh]
    obtain rfl := mbget_ok_two_dim S I res2 hnd hres
    have hlen : I.data.length = I.len := len_of_one_dim I h1 hwf
    refine ⟨by simp [_mbget_2dims, hsh], by simp [_mbget_2dims, mbget1, ravel], ?_⟩
    simp [_mbget_2dims, mbget1, NDArray.WF, expandedIdx_length, hsh, hlen, Nat.min_self]

/-- C6 witness: the 1-D gather scenario and a 2-D gather at shape
`(2, 3)` with a one-element index. -/
theorem mbget_shape_witness :
    ((exValues.ndim = 1 → mbget exValues exIndex = .ok (mbget1 exValues exIndex) →
        (mbget1 exValues exIndex).shape = exIndex.shape ∧
        (mbget1 exValues exIndex).dtype = exValues.dtype ∧
        (exIndex.WF → (mbget1 exValues exIndex).WF)) ∧
      (exValues.shape = [2, 3] → exIndex.ndim = 1 → exIndex.WF →
        mbget exValues exIndex = .ok (mbget1 exValues exIndex) →
        (mbget1 exValues exIndex).shape = [exIndex.len, 3] ∧
        (mbget1 exValues exIndex).dtype = exValues.dtype ∧ (mbget1 exValues exIndex).WF)) ∧
    ((exMat.ndim = 1 → mbget exMat exRowIdx = .ok (_mbget_2dims exMat exRowIdx) →
        (_mbget_2dims exMat exRowIdx).shape = exRowIdx.shape ∧
        (_mbget_2dims exMat exRowIdx).dtype = exMat.dtype ∧
        (exRowIdx.WF → (_mbget_2dims exMat exRowIdx).WF)) ∧
      (exMat.shape = [2, 3] → exRowIdx.ndim = 1 → exRowIdx.WF →
        mbget exMat exRowIdx = .ok (_mbget_2dims exMat exRowIdx) →
        (_mbget_2dims exMat exRowIdx).shape = [exRowIdx.len, 3] ∧
        (_mbget_2dims exMat exRowIdx).dtype = exMat.dtype ∧
        (_mbget_2dims exMat exRowIdx).WF)) :=
  ⟨mbget_shape exValues exIndex (mbget1 exValues exIndex) (mbget1 exValues exIndex) 2 3,
   mbget_shape exMat exRowIdx (_mbget_2dims exMat exRowIdx) (_mbget_2dims exMat exRowIdx) 2 3⟩

/-- C1: for a 1-D source of a kernel-supported dtype, every entry of the
gather equals the source cell at the (nonnegative, in-range) index, and
every out-of-range index — negative indices included, with no
Python-style wraparound — yields the source dtype's invalid value (NaN
for floats, the minimum-value integer sentinel for int32/int64, the
empty string for char arrays, by definition of `Dtype.invalid`). -/
theorem mbget_gather_bounds (S I res : NDArray) (k : Nat) (i : Int)
    (h1 : S.ndim = 1) (hwf : S.WF) (hsup : S.dtype.mbgetSupported = true)
    (hres : mbget S I = .ok res)
    (hk : (I.data.map RTVal.toInt).get? k = some i) :
    (0 ≤ i ∧ i < (S.len : Int) → res.data.get? k = S.data.get? i.toNat) ∧
    (¬(0 ≤ i ∧ i < (S.len : Int)) → res.data.get? k = some S.dtype.invalid) ∧
    (i < 0 → res.data.get? k = some S.dtype.invalid) := by
  have hlen : S.data.length = S.len := len_of_one_dim S h1 hwf
  obtain rfl := mbget_ok_one_dim S I res h1 hres
  rw [List.get?_map] at hk
  obtain ⟨v, hv, hvi⟩ : ∃ v, I.data.get? k = some v ∧ v.toInt = i := by
    cases hIk : I.data.get? k with
    | none => rw [hIk] at hk; simp at hk
    | some w => rw [hIk] at hk; simp at hk; exact ⟨w, rfl, hk⟩
  have hres_k : (mbget1 S I).data.get? k =
      some (if 0 ≤ v.toInt ∧ v.toInt < (S.data.length : Int) then
        S.data.getD v.toInt.toNat S.dtype.invalid else S.dtype.invalid) := by
    simp only [mbget1, List.get?_map, hv]
    rfl
  refine ⟨fun hin => ?_, fun hout => ?_, fun hneg => ?_⟩
  · have hc : 0 ≤ v.toInt ∧ v.toInt < (S.data.length : Int) := by
      rw [hvi, hlen]; exact hin
    rw [hres_k, if_pos hc, hvi]
    have hlt : i.toNat < S.data.length := by omega
    rw [List.getD_eq_getElem?_getD, List.getElem?_eq_getElem hlt]
    simp [List.get?_eq_getElem?, List.getElem?_eq_getElem hlt]
  · have hc : ¬(0 ≤ v.toInt ∧ v.toInt < (S.data.length : Int)) := by
      rw [hvi, hlen]; exact hout
    rw [hres_k, if_neg hc]
  · have hc : ¬(0 ≤ v.toInt ∧ v.toInt < (S.data.length : Int)) := by
      rw [hvi]; omega
    rw [hres_k, if_neg hc]

/-- C1 witness: the documented gather scenario at position 1, whose
index -7 is out of bounds and yields the int32 sentinel. -/
theorem mbget_gather_bounds_witness :
    (0 ≤ (-7 : Int) ∧ (-7 : Int) < (exValues.len : Int) →
        (mbget1 exValues exIndex).data.get? 1 = exValues.data.get? (-7 : Int).toNat) ∧
    (¬(0 ≤ (-7 : Int) ∧ (-7 : Int) < (exValues.len : Int)) →
        (mbget1 exValues exIndex).data.get? 1 = some exValues.dtype.invalid) ∧
    ((-7 : Int) < 0 → (mbget1 exValues exIndex).data.get? 1 = some exValues.dtype.invalid) :=
  mbget_gather_bounds exValues exIndex (mbget1 exValues exIndex) 1 (-7)
    (by decide) (by decide) (by decide) rfl (by decide)

/-- C5 witness: the three failure modes at concrete arrays. -/
theorem mbget_type_errors_witness :
    typeErrored (mbget exObjArr exIndex) = true ∧
    typeErrored (mbget exValues exFloatIdx) = true ∧
    valueErrored (mbget exArr3d exIndex) = true :=
  ⟨(mbget_type_errors exObjArr exIndex).1 (by decide),
   (mbget_type_errors exValues exFloatIdx).2.1 (by decide) (by decide),
   (mbget_type_errors exArr3d exIndex).2.2 (by decide) (by decide) (by decide)⟩


theorem dtype_eq_of_num_itemsize (a b : Dtype) (hn : a.num = b.num)
    (hi : a.itemsize = b.itemsize) : a = b := by
  cases a <;> cases b <;> simp_all [Dtype.num, Dtype.itemsize]

theorem possibly_convert_dtype (arr : NDArray) (d : Dtype) :
    (possibly_convert arr d).dtype = d := by
  unfold possibly_convert
  split_ifs with h1 h2
  · rfl
  · rfl
  · exact dtype_eq_of_num_itemsize _ _ (not_not.mp h1) (not_not.mp h2)

/-- C3: every pair of corresponding columns produced by `normalize_keys`
has identical dtype — hence, for strings, identical item width (the
itemsize is a function of the dtype). -/
theorem normalize_keys_dtype_aligned (key1 key2 : KeyInput) (i : Nat) (a1 a2 : NDArray)
    (h1 : (normalize_keys key1 key2).1.get? i = some a1)
    (h2 : (normalize_keys key1 key2).2.get? i = some a2) :
    a1.dtype = a2.dtype ∧ a1.dtype.itemsize = a2.dtype.itemsize := by
  unfold normalize_keys at h1 h2
  simp only [List.get?_map] at h1 h2
  cases hp : ((check_key key1).zip (check_key key2)).get? i with
  | none => rw [hp] at h1; simp at h1
  | some p =>
      rw [hp] at h1 h2
      simp only [Option.map_some'] at h1 h2
      rw [Option.some_inj] at h1 h2
      rw [← h1, ← h2]
      constructor
      · rw [possibly_convert_dtype, possibly_convert_dtype]
      · rw [possibly_convert_dtype, possibly_convert_dtype]

/-- An int32 key column `[1, 2]`. -/
def exKeyI32 : NDArray := { dtype := .int32, shape := [2], data := [.vint 1, .vint 2] }

/-- An int64 key column `[1, 2]`. -/
def exKeyI64 : NDArray := { dtype := .int64, shape := [2], data := [.vint 1, .vint 2] }

/-- C3 witness: an int32 column against an int64 column lands on a
shared int64 dtype. -/
theorem normalize_keys_dtype_aligned_witness :
    (asFaType exKeyI32 .int64).dtype = exKeyI64.dtype ∧
    (asFaType exKeyI32 .int64).dtype.itemsize = exKeyI64.dtype.itemsize :=
  normalize_keys_dtype_aligned (.ndarr exKeyI32) (.ndarr exKeyI64) 0
    (asFaType exKeyI32 .int64) exKeyI64 (by decide) (by decide)

theorem zipWith_get?_some {a b g : Type} (f : a -> b -> g) :
    forall (as_ : List a) (bs : List b) (i : Nat) (x : a) (y : b),
    as_.get? i = some x -> bs.get? i = some y ->
    (List.zipWith f as_ bs).get? i = some (f x y) := by
  intro as_
  induction as_ with
  | nil => intro bs i x y hx _; simp at hx
  | cons z zs ih =>
      intro bs i x y hx hy
      cases bs with
      | nil => simp at hy
      | cons w ws =>
          cases i with
          | zero =>
              simp only [List.get?] at hx hy
              rw [Option.some_inj] at hx hy
              subst hx; subst hy
              rfl
          | succ j =>
              simpa using ih ws j x y (by simpa using hx) (by simpa using hy)

theorem npRepeat_get? (c : Nat) (hcpos : 0 < c) :
    forall (xs : List Int) (k col : Nat), col < c -> k < xs.length ->
    (npRepeat xs c).get? (k * c + col) = some (xs.getD k 0) := by
  intro xs
  induction xs with
  | nil => intro k col _ hk; simp at hk
  | cons x rest ih =>
      intro k col hcol hk
      cases k with
      | zero =>
          have harr : npRepeat (x :: rest) c
              = List.replicate c x ++ npRepeat rest c := by
            simp [npRepeat]
          rw [harr]
          rw [List.get?_append (by simpa using hcol)]
          simp [List.getElem?_replicate, hcol]
      | succ m =>
          have harr : npRepeat (x :: rest) c
              = List.replicate c x ++ npRepeat rest c := by
            simp [npRepeat]
          have hidx : (m + 1) * c + col = c + (m * c + col) := by ring
          rw [harr, hidx]
          rw [List.get?_append_right (by simp)]
          simp only [List.length_replicate, Nat.add_sub_cancel_left]
          have := ih m col hcol (by simpa using hk)
          simpa using this

theorem npTile_arange_get? (c : Nat) :
    forall (n k col : Nat), col < c -> k < n ->
    (npTile (npArange c) n).get? (k * c + col) = some (col : Int) := by
  intro n
  induction n with
  | zero => intro k col _ hk; omega
  | succ m ih =>
      intro k col hcol hk
      have harr : npTile (npArange c) (m + 1)
          = npArange c ++ npTile (npArange c) m := by
        simp [npTile, List.replicate_succ]
      cases k with
      | zero =>
          rw [harr]
          rw [List.get?_append (by simpa [npArange] using hcol)]
          simp [npArange, List.getElem?_range, hcol]
      | succ j =>
          have hidx : (j + 1) * c + col = c + (j * c + col) := by ring
          rw [harr, hidx]
          rw [List.get?_append_right (by simp [npArange])]
          have hlen : (npArange c).length = c := by simp [npArange]
          rw [hlen, Nat.add_sub_cancel_left]
          exact ih j col hcol (by omega)

theorem expandedIdx_get? (idx : List Int) (c n k col : Nat)
    (hcol : col < c) (hk : k < idx.length) (hkn : k < n) :
    (expandedIdx idx c n).get? (k * c + col) = some (idx.getD k 0 * c + col) := by
  have hcpos : 0 < c := Nat.lt_of_le_of_lt (Nat.zero_le col) hcol
  unfold expandedIdx
  refine zipWith_get?_some _ _ _ _ _ _ ?_ ?_
  · rw [List.get?_map, npRepeat_get? c hcpos idx k col hcol hk]
    rfl
  · exact npTile_arange_get? c n k col hcol hkn

/-- C10: for a 2-D source of shape `(n, c)` with `c >= 1` and an
out-of-bounds row index `i` at position `k` of a 1-D index array, each
of the `c` flattened indices `i*c + col` that the 2-D expansion derives
from `i` is itself outside `[0, n*c)`, and row `k` of the result
consists entirely of the dtype's invalid value — an out-of-bounds row
index never partially hits valid source cells. -/
theorem mbget_2d_oob_row (S I res : NDArray) (n c k : Nat) (i : Int)
    (hsh : S.shape = [n, c]) (hc : 1 ≤ c) (hwfS : S.WF)
    (hI1 : I.ndim = 1) (hwfI : I.WF)
    (hres : mbget S I = .ok res)
    (hk : (I.data.map RTVal.toInt).get? k = some i)
    (hoob : ¬(0 ≤ i ∧ i < (n : Int))) :
    (∀ col : Nat, col < c →
        (expandedIdx (I.data.map RTVal.toInt) c I.len).get? (k * c + col)
          = some (i * c + col) ∧
        ¬(0 ≤ i * c + col ∧ i * c + col < ((n * c : Nat) : Int))) ∧
    (∀ col : Nat, col < c →
        res.data.get? (k * c + col) = some S.dtype.invalid) := by
  have hnd : S.ndim = 2 := by simp [NDArray.ndim, hsh]
  obtain rfl := mbget_ok_two_dim S I res hnd hres
  have hlenI : I.data.length = I.len := len_of_one_dim I hI1 hwfI
  have hklt : k < (I.data.map RTVal.toInt).length := by
    obtain ⟨h, -⟩ := List.get?_eq_some.mp hk
    exact h
  have hkI : k < I.data.length := by simpa using hklt
  have hkn : k < I.len := by omega
  have hgetD : (I.data.map RTVal.toInt).getD k 0 = i := by
    rw [List.getD_eq_getElem?_getD, ← List.get?_eq_getElem?, hk]
    rfl
  have harith : ∀ col : Nat, col < c →
      ¬(0 ≤ i * c + col ∧ i * c + col < ((n * c : Nat) : Int)) := by
    intro col hcol
    have hcolPos : (0 : Int) ≤ col := Int.natCast_nonneg col
    have hcolLt : (col : Int) < c := by exact_mod_cast hcol
    have hcast : ((n * c : Nat) : Int) = (n : Int) * c := by push_cast; ring
    rcases not_and_or.mp hoob with hneg | hge
    · push_neg at hneg
      rintro ⟨hge0, -⟩
      have h1 : i ≤ -1 := by omega
      have h2 : i * c ≤ (-1) * c :=
        mul_le_mul_of_nonneg_right h1 (by positivity)
      have h3 : (-1 : Int) * c = -(c : Int) := by ring
      linarith
    · push_neg at hge
      rintro ⟨-, hlt⟩
      have h2 : (n : Int) * c ≤ i * c :=
        mul_le_mul_of_nonneg_right hge (by positivity)
      rw [hcast] at hlt
      linarith
  have hexp : ∀ col : Nat, col < c →
      (expandedIdx (I.data.map RTVal.toInt) c I.len).get? (k * c + col)
        = some (i * c + col) := by
    intro col hcol
    rw [expandedIdx_get? (I.data.map RTVal.toInt) c I.len k col hcol hklt (by omega)]
    rw [hgetD]
  refine ⟨fun col hcol => ⟨hexp col hcol, harith col hcol⟩, fun col hcol => ?_⟩
  have hcols : S.shape.getD 1 0 = c := by rw [hsh]; rfl
  have hflat : S.data.length = n * c := by
    have := hwfS
    unfold NDArray.WF at this
    rw [hsh] at this
    simpa using this
  have hdata : (_mbget_2dims S I).data
      = ((expandedIdx (I.data.map RTVal.toInt) c I.len).map RTVal.vint).map
          (fun v =>
            if 0 ≤ v.toInt ∧ v.toInt < (S.data.length : Int) then
              S.data.getD v.toInt.toNat S.dtype.invalid
            else S.dtype.invalid) := by
    simp [_mbget_2dims, mbget1, ravel, hsh]
  rw [hdata, List.get?_map, List.get?_map, hexp col hcol]
  simp only [Option.map_some']
  rw [Option.some_inj]
  have hcond : ¬(0 ≤ (RTVal.vint (i * c + col)).toInt ∧
      (RTVal.vint (i * c + col)).toInt < (S.data.length : Int)) := by
    show ¬(0 ≤ i * c + col ∧ i * c + col < (S.data.length : Int))
    rw [hflat]
    have := harith col hcol
    intro hcontra
    exact this (by exact_mod_cast hcontra)
  rw [if_neg hcond]

/-- C10 witness: index 5 into a 2-row, 3-column matrix — all three
expanded indices 15, 16, 17 fall outside `[0, 6)` and the result row is
three int32 sentinels. -/
theorem mbget_2d_oob_row_witness :
    (∀ col : Nat, col < 3 →
        (expandedIdx (exRowIdx.data.map RTVal.toInt) 3 exRowIdx.len).get? (0 * 3 + col)
          = some (5 * 3 + col) ∧
        ¬(0 ≤ (5 : Int) * 3 + col ∧ (5 : Int) * 3 + col < ((2 * 3 : Nat) : Int))) ∧
    (∀ col : Nat, col < 3 →
        (_mbget_2dims exMat exRowIdx).data.get? (0 * 3 + col)
          = some exMat.dtype.invalid) :=
  mbget_2d_oob_row exMat exRowIdx (_mbget_2dims exMat exRowIdx) 2 3 0 5
    (by decide) (by decide) (by decide) (by decide) (by decide) rfl
    (by decide) (by decide)

theorem enumFrom_get? {a : Type} :
    forall (s : Nat) (l : List a) (i : Nat),
    (List.enumFrom s l).get? i = (l.get? i).map (fun x => (s + i, x)) := by
  intro s l
  induction l generalizing s with
  | nil => intro i; simp
  | cons x xs ih =>
      intro i
      cases i with
      | zero => simp
      | succ j =>
          have := ih (s + 1) j
          simp only [List.enumFrom, List.get?] at this ⊢
          rw [this]
          cases xs.get? j <;> simp <;> omega

theorem enumRows_get? (ks : List RKey) (ts : List Int) (j : Nat) :
    (enumRows ks ts).get? j = ((ks.zip ts).get? j).map (fun p => (j, p)) := by
  have := enumFrom_get? 0 (ks.zip ts) j
  simpa [enumRows, List.enum] using this

theorem enumRows_length (ks : List RKey) (ts : List Int) :
    (enumRows ks ts).length = min ks.length ts.length := by
  simp [enumRows]

theorem zip_get?_iff {a b : Type} :
    forall (as_ : List a) (bs : List b) (i : Nat) (x : a) (y : b),
    (as_.zip bs).get? i = some (x, y) ↔ (as_.get? i = some x ∧ bs.get? i = some y) := by
  intro as_
  induction as_ with
  | nil => intro bs i x y; simp
  | cons z zs ih =>
      intro bs i x y
      cases bs with
      | nil => simp
      | cons w ws =>
          cases i with
          | zero => simp [Prod.ext_iff]
          | succ j => simpa using ih ws j x y

theorem map_snd_zip_eq {a b : Type} :
    forall (as_ : List a) (bs : List b), as_.length = bs.length →
    (as_.zip bs).map Prod.snd = bs := by
  intro as_
  induction as_ with
  | nil =>
      intro bs h
      cases bs with
      | nil => rfl
      | cons w ws => simp at h
  | cons z zs ih =>
      intro bs h
      cases bs with
      | nil => simp at h
      | cons w ws => simpa using ih ws (by simpa using h)

theorem rowKeys_length (cols : List NDArray) (n : Nat) :
    (rowKeys cols n).length = n := by
  simp [rowKeys]

theorem rowKeys_get? (cols : List NDArray) (n i : Nat) (hi : i < n) :
    (rowKeys cols n).get? i = some (rowKeyAt cols i) := by
  simp [rowKeys, List.get?_map]
  exact ⟨i, by rw [List.getElem?_range hi], rfl⟩

theorem sorted_get?_mono {l : List Int} (hs : List.Sorted (· ≤ ·) l)
    (p q : Nat) (u v : Int) (hpq : p ≤ q)
    (hp : l.get? p = some u) (hq : l.get? q = some v) : u ≤ v := by
  obtain ⟨hplen, hpv⟩ := List.get?_eq_some.mp hp
  obtain ⟨hqlen, hqv⟩ := List.get?_eq_some.mp hq
  rcases Nat.lt_or_ge p q with hlt | hge
  · have := List.pairwise_iff_get.mp hs ⟨p, hplen⟩ ⟨q, hqlen⟩ hlt
    rw [hpv, hqv] at this
    exact this
  · have hpq2 : p = q := by omega
    subst hpq2
    rw [hp] at hq
    rw [Option.some_inj] at hq
    omega

/-- The scan invariant of the hash-assisted merge: after the first `c`
right-hand rows have been consumed at cutoff time `T`, the hash holds,
for each key, exactly the greatest consumed row number bearing that key,
and every consumed row's time satisfies the comparator against `T`. -/
def Inv (ks2 : List RKey) (ts2 : List Int) (cmp : Int → Int → Bool)
    (c : Nat) (h : KHash) (T : Int) : Prop :=
  (∀ k j, hlookup k h = some j → j < c ∧ ks2.get? j = some k) ∧
  (∀ k j, hlookup k h = some j → ∀ j', j < j' → j' < c → ks2.get? j' ≠ some k) ∧
  (∀ k, hlookup k h = none → ∀ j', j' < c → ks2.get? j' ≠ some k) ∧
  (∀ j, j < c → ∃ u, ts2.get? j = some u ∧ cmp u T = true)

theorem Inv_mono (ks2 : List RKey) (ts2 : List Int) (cmp : Int → Int → Bool)
    (c : Nat) (h : KHash) (T T' : Int)
    (hcm : ∀ u, cmp u T = true → cmp u T' = true)
    (hinv : Inv ks2 ts2 cmp c h T) : Inv ks2 ts2 cmp c h T' := by
  obtain ⟨h1, h2, h3, h4⟩ := hinv
  refine ⟨h1, h2, h3, fun j hj => ?_⟩
  obtain ⟨u, hu, hc⟩ := h4 j hj
  exact ⟨u, hu, hcm u hc⟩

theorem consume_spec (ks2 : List RKey) (ts2 : List Int) (cmp : Int → Int → Bool)
    (T : Int) :
    ∀ (rows : List (Nat × RKey × Int)) (c : Nat) (h : KHash),
    rows = (enumRows ks2 ts2).drop c →
    Inv ks2 ts2 cmp c h T →
    ∃ c' h',
      consume (fun u => cmp u T) rows h = ((enumRows ks2 ts2).drop c', h') ∧
      c ≤ c' ∧ Inv ks2 ts2 cmp c' h' T ∧
      ∀ jc kc tc, (enumRows ks2 ts2).get? c' = some (jc, kc, tc) → cmp tc T = false := by
  intro rows
  induction rows with
  | nil =>
      intro c h hdrop hinv
      refine ⟨c, h, by simp [consume, hdrop], le_refl c, hinv, ?_⟩
      intro jc kc tc hget
      have hlen : (enumRows ks2 ts2).length ≤ c :=
        List.drop_eq_nil_iff_le.mp hdrop.symm
      rw [List.get?_eq_none.mpr hlen] at hget
      exact Option.noConfusion hget
  | cons row rest ih =>
      intro c h hdrop hinv
      obtain ⟨j, k, t⟩ := row
      have hgetc : (enumRows ks2 ts2).get? c = some (j, k, t) := by
        have h0 : ((enumRows ks2 ts2).drop c).get? 0 = some (j, k, t) := by
          rw [← hdrop]; rfl
        rw [List.get?_drop] at h0
        simpa using h0
      have hjc : j = c ∧ ks2.get? c = some k ∧ ts2.get? c = some t := by
        rw [enumRows_get?] at hgetc
        cases hz : (ks2.zip ts2).get? c with
        | none => rw [hz] at hgetc; exact Option.noConfusion hgetc
        | some p =>
            rw [hz] at hgetc
            simp only [Option.map_some'] at hgetc
            rw [Option.some_inj] at hgetc
            obtain ⟨p1, p2⟩ := p
            obtain ⟨hj1, hp⟩ := Prod.mk.injEq .. ▸ hgetc
            obtain ⟨hk1, ht1⟩ := Prod.mk.injEq .. ▸ hp
            subst hj1
            obtain ⟨hzk, hzt⟩ := (zip_get?_iff ks2 ts2 c p1 p2).mp hz
            subst hk1; subst ht1
            exact ⟨rfl, hzk, hzt⟩
      obtain ⟨hj, hkc, htc⟩ := hjc
      subst hj
      have hrest : rest = (enumRows ks2 ts2).drop (j + 1) := by
        have htail : ((enumRows ks2 ts2).drop j).tail = (enumRows ks2 ts2).drop (j + 1) :=
          List.tail_drop _ _
        rw [← htail, ← hdrop]
        rfl
      by_cases hcmp : cmp t T = true
      · have hstep : consume (fun u => cmp u T) ((j, k, t) :: rest) h
            = consume (fun u => cmp u T) rest ((k, j) :: h) := by
          simp [consume, hcmp]
        rw [hstep]
        have hinv' : Inv ks2 ts2 cmp (j + 1) ((k, j) :: h) T := by
          obtain ⟨i1, i2, i3, i4⟩ := hinv
          refine ⟨?_, ?_, ?_, ?_⟩
          · intro k0 j0 hl
            by_cases hk0 : k = k0
            · subst hk0
              rw [hlookup, if_pos rfl, Option.some_inj] at hl
              subst hl
              exact ⟨by omega, hkc⟩
            · rw [hlookup, if_neg hk0] at hl
              obtain ⟨ha, hb⟩ := i1 k0 j0 hl
              exact ⟨by omega, hb⟩
          · intro k0 j0 hl j1 hj1 hj1c
            by_cases hk0 : k = k0
            · subst hk0
              rw [hlookup, if_pos rfl, Option.some_inj] at hl
              subst hl
              omega
            · rw [hlookup, if_neg hk0] at hl
              rcases Nat.lt_or_ge j1 j with hlt | hge
              · exact i2 k0 j0 hl j1 hj1 hlt
              · have hj1j : j1 = j := by omega
                subst hj1j
                rw [hkc]
                intro hcon
                rw [Option.some_inj] at hcon
                exact hk0 hcon
          · intro k0 hl j1 hj1c
            have hk0 : k ≠ k0 := by
              intro hcon
              subst hcon
              rw [hlookup, if_pos rfl] at hl
              exact Option.noConfusion hl
            rw [hlookup, if_neg hk0] at hl
            rcases Nat.lt_or_ge j1 j with hlt | hge
            · exact i3 k0 hl j1 hlt
            · have hj1j : j1 = j := by omega
              subst hj1j
              rw [hkc]
              intro hcon
              rw [Option.some_inj] at hcon
              exact hk0 hcon
          · intro j1 hj1
            rcases Nat.lt_or_ge j1 j with hlt | hge
            · exact i4 j1 hlt
            · have hj1j : j1 = j := by omega
              subst hj1j
              exact ⟨t, htc, hcmp⟩
        obtain ⟨c', h', ha, hb, hc2, hd⟩ := ih (j + 1) ((k, j) :: h) hrest hinv'
        exact ⟨c', h', ha, by omega, hc2, hd⟩
      · refine ⟨j, h, ?_, le_refl j, hinv, ?_⟩
        · rw [← hdrop]
          simp [consume, hcmp]
        · intro jc kc tc hget
          rw [hgetc, Option.some_inj] at hget
          obtain ⟨-, hp⟩ := Prod.mk.injEq .. ▸ hget
          obtain ⟨-, ht2⟩ := Prod.mk.injEq .. ▸ hp
          subst ht2
          exact Bool.not_eq_true _ ▸ hcmp

theorem enumRows_get?_decomp (ks : List RKey) (ts : List Int) (c j0 : Nat)
    (k0 : RKey) (t0 : Int)
    (hE : (enumRows ks ts).get? c = some (j0, k0, t0)) :
    j0 = c ∧ ks.get? c = some k0 ∧ ts.get? c = some t0 := by
  rw [enumRows_get?] at hE
  cases hz : (ks.zip ts).get? c with
  | none => rw [hz] at hE; exact Option.noConfusion hE
  | some q =>
      rw [hz] at hE
      simp only [Option.map_some'] at hE
      rw [Option.some_inj] at hE
      obtain ⟨q1, q2⟩ := q
      obtain ⟨hj1, hp⟩ := Prod.mk.injEq .. ▸ hE
      obtain ⟨hk1, ht1⟩ := Prod.mk.injEq .. ▸ hp
      subst hj1
      obtain ⟨hzk, hzt⟩ := (zip_get?_iff ks ts c q1 q2).mp hz
      subst hk1; subst ht1
      exact ⟨rfl, hzk, hzt⟩

theorem mergeLoop_sound (ks2 : List RKey) (ts2 : List Int) (cmp : Int → Int → Bool)
    (hcmpMono : ∀ u T T', cmp u T = true → T ≤ T' → cmp u T' = true)
    (hcmpFail : ∀ u T w, cmp u T = false → u ≤ w → ¬(w < T))
    (hm2 : ∀ p q u v, p ≤ q → ts2.get? p = some u → ts2.get? q = some v → u ≤ v) :
    ∀ (rows1 : List (RKey × Int)) (c : Nat) (h : KHash) (T : Int),
    Inv ks2 ts2 cmp c h T →
    List.Chain (fun x y => x ≤ y) T (rows1.map Prod.snd) →
    ∀ i jr, (mergeLoop cmp rows1 ((enumRows ks2 ts2).drop c) h).get? i = some (some jr) →
    ∃ k t u, rows1.get? i = some (k, t) ∧
      ks2.get? jr = some k ∧ ts2.get? jr = some u ∧ cmp u t = true ∧
      ∀ j' u', ks2.get? j' = some k → ts2.get? j' = some u' → ¬(u < u' ∧ u' < t) := by
  intro rows1
  induction rows1 with
  | nil =>
      intro c h T hinv hch i jr hget
      simp [mergeLoop] at hget
  | cons row rest ih =>
      intro c h T hinv hch i jr hget
      obtain ⟨k, t⟩ := row
      rw [List.map_cons, List.chain_cons] at hch
      obtain ⟨hTt, hch2⟩ := hch
      have hinv1 : Inv ks2 ts2 cmp c h t :=
        Inv_mono ks2 ts2 cmp c h T t (fun u hu => hcmpMono u T t hu hTt) hinv
      obtain ⟨c', h', hcons, hcc, hinv2, hfail⟩ :=
        consume_spec ks2 ts2 cmp t ((enumRows ks2 ts2).drop c) c h rfl hinv1
      have hml : mergeLoop cmp ((k, t) :: rest) ((enumRows ks2 ts2).drop c) h
          = hlookup k h' :: mergeLoop cmp rest ((enumRows ks2 ts2).drop c') h' := by
        simp only [mergeLoop]
        rw [hcons]
      rw [hml] at hget
      cases i with
      | zero =>
          simp only [List.get?_cons_zero] at hget
          rw [Option.some_inj] at hget
          obtain ⟨i1, i2, i3, i4⟩ := hinv2
          obtain ⟨hjc2, hkj⟩ := i1 k jr hget
          obtain ⟨u, hu, hcmpu⟩ := i4 jr hjc2
          refine ⟨k, t, u, rfl, hkj, hu, hcmpu, ?_⟩
          intro j1 u1 hkj1 hu1
          rintro ⟨hlt1, hlt2⟩
          rcases Nat.lt_or_ge j1 c' with hj1c | hj1c
          · rcases Nat.le_total j1 jr with hj1j | hj1j2
            · have := hm2 j1 jr u1 u hj1j hu1 hu
              omega
            · rcases Nat.lt_or_ge jr j1 with hj1j | hj1j3
              · exact i2 k jr hget j1 hj1j hj1c hkj1
              · have := hm2 j1 jr u1 u hj1j3 hu1 hu
                omega
          · have hj1ts : j1 < ts2.length := (List.get?_eq_some.mp hu1).1
            have hj1ks : j1 < ks2.length := (List.get?_eq_some.mp hkj1).1
            have hc2len : c' < (enumRows ks2 ts2).length := by
              rw [enumRows_length]
              omega
            cases hE : (enumRows ks2 ts2).get? c' with
            | none =>
                have := List.get?_eq_none.mp hE
                omega
            | some p =>
                obtain ⟨jc, kc, tc⟩ := p
                have hcf : cmp tc t = false := hfail jc kc tc hE
                obtain ⟨-, -, htcc⟩ := enumRows_get?_decomp ks2 ts2 c' jc kc tc hE
                have htcu1 : tc ≤ u1 := hm2 c' j1 tc u1 hj1c htcc hu1
                exact hcmpFail tc t u1 hcf htcu1 hlt2
      | succ i2 =>
          simp only [List.get?_cons_succ] at hget
          obtain ⟨k0, t0, u0, hr, hk0, hu0, hc0, hno⟩ :=
            ih c' h' t hinv2 hch2 i2 jr hget
          refine ⟨k0, t0, u0, ?_, hk0, hu0, hc0, hno⟩
          rw [List.get?_cons_succ]
          exact hr

/-- C2: in a backward `alignmk` call with monotonic (non-decreasing)
time arrays, every non-sentinel answer `j` for left row `i` points at a
right row whose normalized combined key equals left row `i`'s, whose
time is at or before the left time (strictly before when exact matches
are disallowed), and such that no right row with the same key has a
time strictly between the matched time and the left time. -/
theorem alignmk_backward_sound (key1 key2 : KeyInput) (t1 t2 : List Int)
    (ae : Bool) (res : List Int) (i : Nat) (j : Int)
    (hs1 : List.Sorted (· ≤ ·) t1) (hs2 : List.Sorted (· ≤ ·) t2)
    (hres : alignmk key1 key2 (.ndarray t1) (.ndarray t2) "backward" ae = .ok res)
    (hj : res.get? i = some j) (hsent : j ≠ INVALID32) :
    ∃ jn : Nat, j = (jn : Int) ∧ jn < t2.length ∧
      rowKeyAt (normalize_keys key1 key2).2 jn
        = rowKeyAt (normalize_keys key1 key2).1 i ∧
      ∃ u t, t2.get? jn = some u ∧ t1.get? i = some t ∧
        (if ae then u ≤ t else u < t) ∧
        ∀ j' u', rowKeyAt (normalize_keys key1 key2).2 j'
              = rowKeyAt (normalize_keys key1 key2).1 i →
          t2.get? j' = some u' → ¬(u < u' ∧ u' < t) := by
  have hred : alignmk key1 key2 (.ndarray t1) (.ndarray t2) "backward" ae
      = .ok (materialize (asofBackward
          (rowKeys (normalize_keys key1 key2).1 t1.length) t1
          (rowKeys (normalize_keys key1 key2).2 t2.length) t2 ae)) := rfl
  rw [hred] at hres
  injection hres with hres2
  subst hres2
  unfold materialize at hj
  rw [List.get?_map] at hj
  cases hopt : (asofBackward (rowKeys (normalize_keys key1 key2).1 t1.length) t1
      (rowKeys (normalize_keys key1 key2).2 t2.length) t2 ae).get? i with
  | none => rw [hopt] at hj; exact Option.noConfusion hj
  | some o =>
      rw [hopt] at hj
      simp only [Option.map_some'] at hj
      rw [Option.some_inj] at hj
      cases o with
      | none =>
          exact absurd hj.symm hsent
      | some jn =>
          simp only [Option.elim] at hj
          have hMono : ∀ u T T',
              (fun (u t : Int) => if ae then decide (u ≤ t) else decide (u < t)) u T = true →
              T ≤ T' →
              (fun (u t : Int) => if ae then decide (u ≤ t) else decide (u < t)) u T' = true := by
            intro u T T' hu hTT
            cases ae
            · simp only [if_false] at hu ⊢
              simp at hu ⊢
              omega
            · simp only [if_true] at hu ⊢
              simp at hu ⊢
              omega
          have hFail : ∀ u T w,
              (fun (u t : Int) => if ae then decide (u ≤ t) else decide (u < t)) u T = false →
              u ≤ w → ¬(w < T) := by
            intro u T w hu huw
            cases ae
            · simp only [if_false] at hu
              simp at hu
              omega
            · simp only [if_true] at hu
              simp at hu
              omega
          have hm2 : ∀ p q u v, p ≤ q → t2.get? p = some u → t2.get? q = some v → u ≤ v :=
            fun p q u v hpq hp hq => sorted_get?_mono hs2 p q u v hpq hp hq
          have hget0 : (mergeLoop
              (fun (u t : Int) => if ae then decide (u ≤ t) else decide (u < t))
              ((rowKeys (normalize_keys key1 key2).1 t1.length).zip t1)
              ((enumRows (rowKeys (normalize_keys key1 key2).2 t2.length) t2).drop 0)
              []).get? i = some (some jn) := by
            rw [List.drop_zero]
            exact hopt
          cases hrows : (rowKeys (normalize_keys key1 key2).1 t1.length).zip t1 with
          | nil =>
              rw [hrows] at hget0
              simp [mergeLoop] at hget0
          | cons row rest =>
              obtain ⟨k0, t0⟩ := row
              have hmapsnd : (((rowKeys (normalize_keys key1 key2).1 t1.length).zip t1).map
                  Prod.snd) = t1 :=
                map_snd_zip_eq _ _ (by rw [rowKeys_length])
              rw [hrows] at hmapsnd
              have hky : t1 = t0 :: rest.map Prod.snd := by
                rw [← hmapsnd]
                rfl
              have hch : List.Chain (fun x y => x ≤ y) t0
                  (((k0, t0) :: rest).map Prod.snd) := by
                rw [List.map_cons, List.chain_cons]
                refine ⟨le_refl t0, ?_⟩
                have hchain2 : List.Chain' (fun x y => x ≤ y) t1 :=
                  List.chain'_iff_pairwise.mpr hs1
                rw [hky] at hchain2
                exact hchain2
              have hinv0 : Inv (rowKeys (normalize_keys key1 key2).2 t2.length) t2
                  (fun (u t : Int) => if ae then decide (u ≤ t) else decide (u < t))
                  0 [] t0 := by
                refine ⟨?_, ?_, ?_, ?_⟩
                · intro k1 j1 hl; simp [hlookup] at hl
                · intro k1 j1 hl; simp [hlookup] at hl
                · intro k1 hl j1 hj1; omega
                · intro j1 hj1; omega
              rw [hrows] at hget0
              obtain ⟨k, t, u, hr, hk2, hu2, hcu, hnob⟩ :=
                mergeLoop_sound (rowKeys (normalize_keys key1 key2).2 t2.length) t2
                  (fun (u t : Int) => if ae then decide (u ≤ t) else decide (u < t))
                  hMono hFail hm2 ((k0, t0) :: rest) 0 [] t0 hinv0 hch i jn hget0
              rw [← hrows] at hr
              obtain ⟨hks1i, ht1i⟩ :=
                (zip_get?_iff (rowKeys (normalize_keys key1 key2).1 t1.length) t1 i k t).mp hr
              have hilen : i < t1.length := (List.get?_eq_some.mp ht1i).1
              have hks1i2 : (rowKeys (normalize_keys key1 key2).1 t1.length).get? i
                  = some (rowKeyAt (normalize_keys key1 key2).1 i) :=
                rowKeys_get? _ _ i hilen
              rw [hks1i2, Option.some_inj] at hks1i
              have hjlen : jn < t2.length := by
                have h3 := (List.get?_eq_some.mp hk2).1
                rw [rowKeys_length] at h3
                exact h3
              have hks2jn : (rowKeys (normalize_keys key1 key2).2 t2.length).get? jn
                  = some (rowKeyAt (normalize_keys key1 key2).2 jn) :=
                rowKeys_get? _ _ jn hjlen
              rw [hks2jn, Option.some_inj] at hk2
              refine ⟨jn, hj.symm, hjlen, by rw [hk2, hks1i], u, t, hu2, ht1i, ?_, ?_⟩
              · have hcu2 : (if ae then decide (u ≤ t) else decide (u < t)) = true := hcu
                cases ae
                · simp only [if_false] at hcu2 ⊢
                  simpa using hcu2
                · simp only [if_true] at hcu2 ⊢
                  simpa using hcu2
              · intro j1 u1 hkeq ht2j1
                have hj1len : j1 < t2.length := (List.get?_eq_some.mp ht2j1).1
                have hks2j1 : (rowKeys (normalize_keys key1 key2).2 t2.length).get? j1
                    = some (rowKeyAt (normalize_keys key1 key2).2 j1) :=
                  rowKeys_get? _ _ j1 hj1len
                have hkeq2 : (rowKeys (normalize_keys key1 key2).2 t2.length).get? j1
                    = some k := by
                  rw [hks2j1, hkeq, hks1i]
                exact hnob j1 u1 hkeq2 ht2j1

/-- C2 witness: the documented backward example at left row 2 (time 4),
matched to right row 0 (time 4). -/
theorem alignmk_backward_sound_witness :
    ∃ jn : Nat, (0 : Int) = (jn : Int) ∧
      jn < ([4, 5, 7, 8, 10, 12, 15, 16, 24] : List Int).length ∧
      rowKeyAt (normalize_keys (.ndarr ones12) (.ndarr ones9)).2 jn
        = rowKeyAt (normalize_keys (.ndarr ones12) (.ndarr ones9)).1 2 ∧
      ∃ u t, ([4, 5, 7, 8, 10, 12, 15, 16, 24] : List Int).get? jn = some u ∧
        ([0, 1, 4, 6, 8, 9, 11, 16, 19, 20, 22, 27] : List Int).get? 2 = some t ∧
        (if true then u ≤ t else u < t) ∧
        ∀ j' u', rowKeyAt (normalize_keys (.ndarr ones12) (.ndarr ones9)).2 j'
              = rowKeyAt (normalize_keys (.ndarr ones12) (.ndarr ones9)).1 2 →
          ([4, 5, 7, 8, 10, 12, 15, 16, 24] : List Int).get? j' = some u' →
          ¬(u < u' ∧ u' < t) :=
  alignmk_backward_sound (.ndarr ones12) (.ndarr ones9)
    [0, 1, 4, 6, 8, 9, 11, 16, 19, 20, 22, 27] [4, 5, 7, 8, 10, 12, 15, 16, 24]
    true [INVALID32, INVALID32, 0, 1, 3, 3, 4, 7, 7, 7, 7, 8] 2 0
    (by decide) (by decide) rfl (by decide) (by decide)

end RtUtils
